import Mathlib

/-!
# Shallow embedding of `src/GameEngine.js` (merge-puzzle game engine)

This file embeds the core of the `GameEngine` class — block generation,
hit testing, the drag/dragEnd gesture machine, merge processing, backfill
and the bounded undo history — as executable Lean definitions, and proves
or refutes the specification claims about them.

Modelling conventions:
* JS objects holding `value/row/col/id/el` become the `Block` structure.
  JS reference identity is modelled by a numeric object identity `oid`
  (fresh `oid`s are drawn from a counter), so `block !== targetBlock`
  becomes `b.oid ≠ target.oid`; a `value` that may be `undefined`
  (it is `potentialValues[randomIndex]` on an empty list) is `Option ℕ`.
* The DOM element of a block is modelled by the flag `el : Bool`
  ("an element exists"); the CSS class `highlighted` of the element lives in
  the engine-level set `highlighted : Finset ℕ` of element (= block) oids,
  mirroring that highlight state is stored on the DOM, not in the grid.
* `Math.random()` and its successive draws are modelled by a stream
  `rand : ℕ → ℚ` of values in `[0,1)` together with a cursor `idx`.
* Event emission: the engine instances considered here have no external
  subscribers, so `emit` never cancels and never replaces a payload
  (`afterEvent.args` is undefined and `x || y` falls back); the only
  cancellation kept visible is the `before:` gate of the operation under
  study, passed in as an explicit `cancelled : Bool` argument.
* Pixel geometry for hit testing (`getBoundingClientRect`) is supplied by
  an explicit assignment `rects : ℕ → Rect` from element oids to boxes.
-/

namespace GameEngine

/-- A block entity: `value` (possibly `undefined`), grid coordinates,
object identity `oid` (models JS reference identity / the unique id),
and whether a rendered DOM element exists (`el`). -/
structure Block where
  value : Option ℕ
  row : ℕ
  col : ℕ
  oid : ℕ
  el : Bool
  deriving Repr, DecidableEq

/-- A history snapshot of a block: the source strips the `el` field
before `JSON.stringify` (`const { el, ...rest } = block`). -/
structure SnapBlock where
  value : Option ℕ
  row : ℕ
  col : ℕ
  oid : ℕ
  deriving Repr, DecidableEq

/-- The grid: row-major nested arrays of cells, a cell being a block or
empty (`null`). -/
abbrev GridState := List (List (Option Block))

/-- A deep, element-free snapshot of a grid state. -/
abbrev Snapshot := List (List (Option SnapBlock))

/-- The value range configuration `{min, max, incrementPower}`. -/
structure RangeCfg where
  rmin : ℕ
  rmax : ℕ
  incrementPower : ℕ
  deriving Repr, DecidableEq

/-- A selection rule `(block, selectedBlocks, state) → boolean`. -/
abbrev SelectionRule := Block → List Block → GridState → Bool

/-- A merge rule `(selectedBlocks, state) → boolean`. -/
abbrev MergeRule := List Block → GridState → Bool

/-- The mutable engine state (the class fields of `GameEngine` that the
claims exercise). `hasGridEl` models `this.gridEl !== null`. -/
structure Engine where
  gridRows : ℕ := 6
  gridCols : ℕ := 5
  range : RangeCfg := ⟨1, 32, 2⟩
  hitBoxScale : ℚ := 4/5
  selectionRules : List SelectionRule := []
  mergeRules : List MergeRule := []
  currentBlock : Option Block := none
  selectedBlocks : List Block := []
  isDragging : Bool := false
  state : GridState := []
  stateHistory : List Snapshot := []
  stateHistoryVersions : ℕ := 10
  highlighted : Finset ℕ := ∅
  hasGridEl : Bool := true

/-- The generativity context threaded through block creation: the
`Math.random()` stream with its cursor, and the fresh-identity counter. -/
structure Gen where
  rand : ℕ → ℚ
  idx : ℕ := 0
  nextOid : ℕ := 0

/-! ## Block factory (`generateBlock`) -/

/-- The loop
`for (let value = this.range.min; value <= this.range.max; value *= incrementPower)`
collecting `potentialValues`. Structured with explicit fuel (the source
loop terminates for the configurations the engine is run with; any fuel
of at least `mx + 1` is enough when `1 ≤ mn` and `2 ≤ p`). -/
def potentialValues (mn mx p : ℕ) : ℕ → List ℕ
  | 0 => []
  | fuel + 1 => if mn ≤ mx then mn :: potentialValues (mn * p) mx p fuel else []

/-- `generateBlock(row, col)` without external subscribers: builds the
legal-value list, draws `Math.floor(Math.random() * length)`, indexes
into the list (an out-of-range index yields `undefined`, i.e. `none`),
and returns a fresh block with `el: null`. -/
def generateBlock (range : RangeCfg) (g : Gen) (row col : ℕ) : Block × Gen :=
  let p := if range.incrementPower = 0 then 2 else range.incrementPower
  let pv := potentialValues range.rmin range.rmax p (range.rmax + 1)
  let randomIndex : ℕ := (⌊g.rand g.idx * (pv.length : ℚ)⌋).toNat
  let value := pv.get? randomIndex
  (⟨value, row, col, g.nextOid, false⟩,
   { g with idx := g.idx + 1, nextOid := g.nextOid + 1 })

/-! ## History (`addToHistory`) -/

/-- The element-free deep copy
`JSON.parse(JSON.stringify(state.map(row => row.map(({el, ...rest}) => rest))))`.
(The source destructures each cell and would throw on a `null` cell; on
every path exercised here the grid is full when it is snapshotted, so the
snapshot is modelled totally, mapping empty cells through.) -/
def snapshot (st : GridState) : Snapshot :=
  st.map fun rw => rw.map fun cell => cell.map fun b => ⟨b.value, b.row, b.col, b.oid⟩

/-- `addToHistory(state)`: push the snapshot, then
`if (this.stateHistory.length > this.stateHistoryVersions) this.stateHistory.shift()`. -/
def addToHistory (versions : ℕ) (hist : List Snapshot) (s : Snapshot) : List Snapshot :=
  let h := hist ++ [s]
  if versions < h.length then h.tail else h

/-! ## Hit testing (`getBlockAtPosition`) -/

/-- A DOM bounding client rect. -/
structure Rect where
  top : ℚ
  bottom : ℚ
  left : ℚ
  right : ℚ
  deriving Repr, DecidableEq

/-- The containment test of `getBlockAtPosition` for one block: the
hitbox extends the rect by `width*scale/2` horizontally and
`height*scale/2` vertically on **each** side (`rect.left - hitboxWidth/2`,
`rect.right + hitboxWidth/2`, and likewise for top/bottom). -/
def hitTest (scale : ℚ) (rect : Rect) (x y : ℚ) : Bool :=
  let hitboxWidth := (rect.right - rect.left) * scale
  let hitboxHeight := (rect.bottom - rect.top) * scale
  let top := rect.top - hitboxHeight / 2
  let bottom := rect.bottom + hitboxHeight / 2
  let left := rect.left - hitboxWidth / 2
  let right := rect.right + hitboxWidth / 2
  decide (left ≤ x) && decide (x ≤ right) && decide (top ≤ y) && decide (y ≤ bottom)

/-- Scan one row for the first matching rendered block. -/
def findInRow (scale : ℚ) (rects : ℕ → Rect) (x y : ℚ) : List (Option Block) → Option Block
  | [] => none
  | cell :: rest =>
      match cell with
      | some b =>
          if b.el && hitTest scale (rects b.oid) x y then some b
          else findInRow scale rects x y rest
      | none => findInRow scale rects x y rest

/-- `getBlockAtPosition(x, y)`: row-major scan of the grid, skipping
empty cells and blocks without an element, returning the first block
whose (scaled) hitbox contains the point. -/
def getBlockAtPosition : GridState → ℚ → (ℕ → Rect) → ℚ → ℚ → Option Block
  | [], _, _, _, _ => none
  | rw :: rest, scale, rects, x, y =>
      match findInRow scale rects x y rw with
      | some b => some b
      | none => getBlockAtPosition rest scale rects x y

/-! ## Input events (`drag`) -/

/-- The DOM event types the gesture machine is wired to. -/
inductive EvType
  | mousedown | mousemove | mouseup | touchstart | touchmove | touchend | touchcancel
  deriving Repr, DecidableEq

/-- The shape of a pointer/touch event as `getEventCoordinates` reads it:
an optional `clientX/clientY` pair, a `touches` list and a
`changedTouches` list. -/
structure InputEvent where
  etype : EvType
  clientXY : Option (ℚ × ℚ) := none
  touches : List (ℚ × ℚ) := []
  changedTouches : List (ℚ × ℚ) := []

/-- `getEventCoordinates(event)`: `clientX` if defined, else the first
entry of `touches`, else the first entry of `changedTouches`, else null. -/
def getEventCoordinates (ev : InputEvent) : Option (ℚ × ℚ) :=
  match ev.clientXY with
  | some c => some c
  | none =>
      match ev.touches.head? with
      | some c => some c
      | none => ev.changedTouches.head?

/-- The `for (const rule of this.selectionRules) { if (!rule(...)) ... break }`
loop of `drag`: AND with short-circuit, in registration order. -/
def evalSelectionRules : List SelectionRule → Block → List Block → GridState → Bool
  | [], _, _, _ => true
  | r :: rs, b, sel, st => if r b sel st then evalSelectionRules rs b sel st else false

/-- Result of one `drag(event)` call: the updated engine and whether
`event.preventDefault()` was called. -/
structure DragResult where
  engine : Engine
  preventDefaultCalled : Bool

/-- `drag(event)` without external subscribers; `cancelled` is the
`before: drag` gate. On a start event it calls `preventDefault()`, sets
the dragging flag and empties the selection list (the current-block
pointer is *not* touched here); then it resolves the pointer to a block,
skips the same-block case, gates the candidate through the selection
rules, and on success records it as current, appends it to the selection
and highlights its element. -/
def drag (e : Engine) (rects : ℕ → Rect) (cancelled : Bool) (ev : InputEvent) : DragResult :=
  if cancelled then ⟨e, false⟩
  else
    let isStart : Bool := decide (ev.etype = .mousedown) || decide (ev.etype = .touchstart)
    let e' := if isStart then { e with isDragging := true, selectedBlocks := [] } else e
    if !isStart && !e.isDragging then ⟨e', isStart⟩
    else
      match getEventCoordinates ev with
      | none => ⟨e', isStart⟩
      | some (x, y) =>
          match getBlockAtPosition e'.state e'.hitBoxScale rects x y with
          | none => ⟨e', isStart⟩
          | some block =>
              if e'.currentBlock.map Block.oid = some block.oid then ⟨e', isStart⟩
              else if evalSelectionRules e'.selectionRules block e'.selectedBlocks e'.state then
                ⟨{ e' with
                    currentBlock := some block,
                    selectedBlocks := e'.selectedBlocks ++ [block],
                    highlighted :=
                      if block.el then insert block.oid e'.highlighted else e'.highlighted },
                  isStart⟩
              else ⟨e', isStart⟩

/-! ## Merge resolver (`calculateMergeValue`, `processMerge`, `fillEmptyPositions`) -/

/-- JS `acc + block.value` where `value` may be `undefined`: adding
`undefined` poisons the sum (`NaN`), modelled as `none`. -/
def addValue : Option ℕ → Option ℕ → Option ℕ
  | some a, some b => some (a + b)
  | _, _ => none

/-- `calculateMergeValue(blocks)` without external subscribers:
`blocks.reduce((acc, block) => acc + block.value, 0)`. -/
def calculateMergeValue (blocks : List Block) : Option ℕ :=
  blocks.foldl (fun acc b => addValue acc b.value) (some 0)

/-- Write one grid cell (all positions on the exercised paths are within
the grid, so out-of-range writes need not grow the nested arrays). -/
def setCell (st : GridState) (r c : ℕ) (v : Option Block) : GridState :=
  st.set r ((st.getD r []).set c v)

/-- The removal step
`if (this.state[block.row] && this.state[block.row][block.col] === block) … = null`:
the cell is cleared only when it holds that very object (oid identity). -/
def clearCell (st : GridState) (b : Block) : GridState :=
  match (st.getD b.row []).getD b.col none with
  | some cur => if cur.oid = b.oid then setCell st b.row b.col none else st
  | none => st

/-- JS mutates a block object in place; every cell referencing that
object (same oid) observes the new field values. -/
def writeThrough (st : GridState) (oid : ℕ) (b' : Block) : GridState :=
  st.map fun rw => rw.map fun cell => cell.map fun b => if b.oid = oid then b' else b

/-- One iteration of the `for (const pos of positions)` loop of
`fillEmptyPositions`: generate a block, give it an element when a grid
element exists, install it into the state, and collect it. -/
def fillStep (acc : Engine × Gen × List Block) (pos : ℕ × ℕ) : Engine × Gen × List Block :=
  let e := acc.1
  let g := acc.2.1
  let newBlocks := acc.2.2
  let r := generateBlock e.range g pos.1 pos.2
  let b := if e.hasGridEl then { r.1 with el := true } else r.1
  ({ e with state := setCell e.state pos.1 pos.2 (some b) }, r.2, newBlocks ++ [b])

/-- `fillEmptyPositions(positions)` without external subscribers. -/
def fillEmptyPositions (e : Engine) (g : Gen) (positions : List (ℕ × ℕ)) :
    Engine × Gen × List Block :=
  positions.foldl fillStep (e, g, [])

/-- `processMerge()` without external subscribers; `cancelled` is the
`before: processMerge` gate. Note the source order: the history snapshot
is appended *before* the `!blocks || blocks.length < 2 || !targetBlock`
guard, and the target is read from `this.currentBlock`. On the success
path the cells of the non-target blocks are cleared, the `value` field
of the target object is overwritten with the merge value (and
`renderBlock` gives it an element), and the vacated positions are
backfilled. -/
def processMerge (e : Engine) (g : Gen) (cancelled : Bool) : Engine × Gen × Bool :=
  if cancelled then (e, g, false)
  else
    let e :=
      { e with stateHistory := addToHistory e.stateHistoryVersions e.stateHistory (snapshot e.state) }
    let blocks := e.selectedBlocks
    let mergeValue := calculateMergeValue blocks
    match e.currentBlock with
    | none => (e, g, false)
    | some targetBlock =>
        if blocks.length < 2 then (e, g, false)
        else
          let blocksToRemove := blocks.filter fun b => b.oid ≠ targetBlock.oid
          let emptyPositions := blocksToRemove.map fun b => (b.row, b.col)
          let st := blocksToRemove.foldl clearCell e.state
          let target' := { targetBlock with value := mergeValue, el := true }
          let e :=
            { e with
                state := writeThrough st targetBlock.oid target',
                currentBlock := some target',
                selectedBlocks :=
                  blocks.map fun b => if b.oid = targetBlock.oid then target' else b }
          let r := fillEmptyPositions e g emptyPositions
          (r.1, r.2.1, true)

/-! ## Gesture end (`dragEnd`) -/

/-- The `for (const rule of this.mergeRules)` loop of `dragEnd`: the
validity verdict together with the trace of rule results actually
evaluated (registration order, short-circuit on the first `false`). -/
def evalMergeRules : List MergeRule → List Block → GridState → Bool × List Bool
  | [], _, _ => (true, [])
  | r :: rs, sel, st =>
      if r sel st then
        let rest := evalMergeRules rs sel st
        (rest.1, true :: rest.2)
      else (false, [false])

/-- One step of the
`for (const block of oldSelection) if (block && block.el) removeHighlight(block.el)`
loop of `dragEnd`: drop the CSS class `highlighted` from the element of
one previously selected block. -/
def unhighlightStep (acc : Engine) (b : Block) : Engine :=
  if b.el then { acc with highlighted := acc.highlighted.erase b.oid } else acc

/-- Result of one `dragEnd(event)` call. `afterEvent` is the `merged`
flag of the concluding `after: dragEnd` payload (`none` when the call
was cancelled and no such event fired); `processMergeResult` is the
value `processMerge` returned when it was invoked. -/
structure DragEndResult where
  engine : Engine
  gen : Gen
  processMergeInvoked : Bool
  processMergeResult : Option Bool
  ruleTrace : List Bool
  afterEvent : Option Bool

/-- `dragEnd(event)` without external subscribers; `cancelled` is the
`before: dragEnd` gate. Clears the dragging flag and the current-block
pointer, returns early (with `merged=false`) on an empty selection,
evaluates the merge rules, invokes `processMerge` when they pass and at
least two blocks are selected, then clears the selection, removes the
highlight of every previously selected block that has an element, and
reports `merged = isValidMerge && oldSelection.length >= 2`. -/
def dragEnd (e : Engine) (g : Gen) (cancelled : Bool) : DragEndResult :=
  if cancelled then ⟨e, g, false, none, [], none⟩
  else
    let e := { e with isDragging := false, currentBlock := none }
    if e.selectedBlocks.length = 0 then ⟨e, g, false, none, [], some false⟩
    else
      let verdict := evalMergeRules e.mergeRules e.selectedBlocks e.state
      let isValidMerge := verdict.1
      let afterMerge :=
        if isValidMerge && decide (2 ≤ e.selectedBlocks.length) then
          let r := processMerge e g false
          (r.1, r.2.1, some r.2.2, true)
        else (e, g, none, false)
      let e' := afterMerge.1
      let oldSelection := e'.selectedBlocks
      let e' := { e' with selectedBlocks := [] }
      let e' := oldSelection.foldl unhighlightStep e'
      ⟨e', afterMerge.2.1, afterMerge.2.2.2, afterMerge.2.2.1, verdict.2,
        some (isValidMerge && decide (2 ≤ oldSelection.length))⟩

/-! ## Concrete instances used by the claim theorems -/

/-- A deterministic randomness/identity context (every draw is `0`). -/
def gZero : Gen := { rand := fun _ => 0, idx := 0, nextOid := 10 }

/-- A rendered block of value 2 at cell (0,0). -/
def b1 : Block := ⟨some 2, 0, 0, 1, true⟩

/-- A rendered block of value 3 at cell (0,1). -/
def b2 : Block := ⟨some 3, 0, 1, 2, true⟩

/-- An engine at the end of a gesture that selected `b1` then `b2` (so
`b2` is the current block), with no merge rules registered, on a full
1×2 grid. This is exactly the state in which `dragEnd` fires. -/
def mergeEngine : Engine :=
  { gridRows := 1
    gridCols := 2
    range := ⟨2, 16, 2⟩
    state := [[some b1, some b2]]
    selectedBlocks := [b1, b2]
    currentBlock := some b2
    isDragging := true
    highlighted := {1, 2} }

/-- C1 — code_bug evidence: a 2-block selection passing every merge rule
(none are registered). `dragEnd` invokes `processMerge`, but because it
cleared `this.currentBlock` first, `processMerge` has no target and
returns `false`: the grid is byte-identical afterwards (no block holds
the sum 5) and the only state change is a stray history snapshot. -/
theorem dragEnd_validMerge_performs_no_merge :
    (dragEnd mergeEngine gZero false).processMergeInvoked = true ∧
    (dragEnd mergeEngine gZero false).processMergeResult = some false ∧
    (dragEnd mergeEngine gZero false).engine.state = mergeEngine.state ∧
    (dragEnd mergeEngine gZero false).engine.stateHistory.length = 1 := by
  decide

/-- The merge engine with the current-block pointer already cleared, as
`processMerge` always sees it when reached from `dragEnd`. -/
def noTargetEngine : Engine := { mergeEngine with currentBlock := none }

/-- An engine whose selection holds a single block. -/
def oneBlockEngine : Engine :=
  { mergeEngine with selectedBlocks := [b1], currentBlock := some b1 }

/-- C2 — code_bug evidence: on both no-op paths (no target block; fewer
than two selected blocks) `processMerge` returns `false` and leaves the
grid alone, but it has already appended a history entry (history grows
from 0 to 1), contrary to the no-history-on-no-op failure semantics. -/
theorem processMerge_noop_appends_history :
    (processMerge noTargetEngine gZero false).2.2 = false ∧
    (processMerge noTargetEngine gZero false).1.state = noTargetEngine.state ∧
    noTargetEngine.stateHistory.length = 0 ∧
    (processMerge noTargetEngine gZero false).1.stateHistory.length = 1 ∧
    (processMerge oneBlockEngine gZero false).2.2 = false ∧
    (processMerge oneBlockEngine gZero false).1.state = oneBlockEngine.state ∧
    (processMerge oneBlockEngine gZero false).1.stateHistory.length = 1 := by
  decide

/-- An inverted range: `min > max`. -/
def badRange : RangeCfg := ⟨2, 1, 2⟩

/-- C5 — code_bug evidence: with `min > max` the legal-value list is
empty, yet `generateBlock` raises nothing: it indexes the empty list and
hands back a block whose `value` is `undefined` (`none`). -/
theorem generateBlock_min_gt_max_undefined_value :
    potentialValues badRange.rmin badRange.rmax 2 (badRange.rmax + 1) = [] ∧
    (generateBlock badRange gZero 0 0).1.value = none := by
  constructor
  · rfl
  · rfl

/-! ## C4: hit testing -/

/-- Unfolding of the containment test: the hitbox is the rect extended
by `scale * dimension / 2` on each of its four sides. -/
theorem hitTest_eq_true_iff (s : ℚ) (r : Rect) (x y : ℚ) :
    hitTest s r x y = true ↔
      (r.left - (r.right - r.left) * s / 2 ≤ x ∧ x ≤ r.right + (r.right - r.left) * s / 2 ∧
        r.top - (r.bottom - r.top) * s / 2 ≤ y ∧ y ≤ r.bottom + (r.bottom - r.top) * s / 2) := by
  simp [hitTest, Bool.and_eq_true, decide_eq_true_eq, and_assoc]

/-- On a grid holding a single rendered block, `getBlockAtPosition` is
the bare containment test. -/
theorem getBlockAtPosition_singleton (b : Block) (hel : b.el = true) (s : ℚ)
    (rects : ℕ → Rect) (x y : ℚ) :
    getBlockAtPosition [[some b]] s rects x y =
      if hitTest s (rects b.oid) x y then some b else none := by
  cases h : hitTest s (rects b.oid) x y <;>
    simp [getBlockAtPosition, findInRow, hel, h]

/-- The visual bounding box used in the C4 scenarios: a 100×100 block
with corners (100,100)–(200,200). -/
def rect100 : Rect := ⟨100, 200, 100, 200⟩

/-- Every element sits at `rect100` in the C4 scenarios. -/
def rects100 : ℕ → Rect := fun _ => rect100

/-- C4 — counterexample: with `hitBoxScale = 0.0` the hitbox does not
degenerate to zero; it is exactly the unscaled rect, so the center of
the block still resolves to the block, where the claim says no point
ever should. -/
theorem hitBoxScale_zero_still_hits :
    getBlockAtPosition [[some b1]] 0 rects100 150 150 = some b1 := by
  rw [getBlockAtPosition_singleton b1 rfl, if_pos]
  rw [hitTest_eq_true_iff]
  norm_num [rects100, rect100]

/-- A second rendered block on the row below `b1`, sharing the same
rendered rect, to exhibit the row-major tie-break. -/
def bLow : Block := ⟨some 4, 1, 0, 3, true⟩

/-- C4 amended: the hitbox is the rect *extended* by
`hitBoxScale * dimension / 2` on each side (total `(1 + scale)×` the
visual size), and the first row-major match wins. Hence with
`hitBoxScale = 2.0` points up to one *full* block width (100) outside
the visual bounds [100,200]² resolve (the hitbox is [0,300]²), and with
`hitBoxScale = 0.0` exactly the points of the unscaled visual box
resolve. -/
theorem getBlockAtPosition_expanded_box :
    (∀ x y : ℚ, getBlockAtPosition [[some b1]] 2 rects100 x y = some b1 ↔
        0 ≤ x ∧ x ≤ 300 ∧ 0 ≤ y ∧ y ≤ 300) ∧
    (∀ x y : ℚ, getBlockAtPosition [[some b1]] 0 rects100 x y = some b1 ↔
        100 ≤ x ∧ x ≤ 200 ∧ 100 ≤ y ∧ y ≤ 200) ∧
    getBlockAtPosition [[some b1], [some bLow]] 2 rects100 150 150 = some b1 := by
  have hfirst : getBlockAtPosition [[some b1], [some bLow]] 2 rects100 150 150 = some b1 := by
    have h1 : hitTest 2 (rects100 1) 150 150 = true := by
      rw [hitTest_eq_true_iff]
      norm_num [rects100, rect100]
    simp [getBlockAtPosition, findInRow, b1, h1]
  refine ⟨?_, ?_, hfirst⟩
  · intro x y
    have key : hitTest 2 (rects100 b1.oid) x y = true ↔
        0 ≤ x ∧ x ≤ 300 ∧ 0 ≤ y ∧ y ≤ 300 := by
      rw [hitTest_eq_true_iff]
      norm_num [rects100, rect100]
    rw [getBlockAtPosition_singleton b1 rfl, ← key]
    cases h : hitTest 2 (rects100 b1.oid) x y <;> simp [h]
  · intro x y
    have key : hitTest 0 (rects100 b1.oid) x y = true ↔
        100 ≤ x ∧ x ≤ 200 ∧ 100 ≤ y ∧ y ≤ 200 := by
      rw [hitTest_eq_true_iff]
      norm_num [rects100, rect100]
    rw [getBlockAtPosition_singleton b1 rfl, ← key]
    cases h : hitTest 0 (rects100 b1.oid) x y <;> simp [h]

/-! ## C6: generated values lie in the geometric progression -/

/-- Every entry of the legal-value list is `mn * p ^ k` for some `k`,
and lies between `mn` and `mx` (for a positive ratio `p`). -/
theorem potentialValues_mem {mx p : ℕ} (hp : 1 ≤ p) :
    ∀ (fuel mn v : ℕ), v ∈ potentialValues mn mx p fuel →
      (∃ k, v = mn * p ^ k) ∧ mn ≤ v ∧ v ≤ mx := by
  intro fuel
  induction fuel with
  | zero => intro mn v h; simp [potentialValues] at h
  | succ n ih =>
      intro mn v h
      rw [potentialValues] at h
      by_cases hmm : mn ≤ mx
      · rw [if_pos hmm] at h
        rcases List.mem_cons.mp h with rfl | h
        · exact ⟨⟨0, by simp⟩, le_refl _, hmm⟩
        · obtain ⟨⟨k, hk⟩, hle, hmax⟩ := ih (mn * p) v h
          refine ⟨⟨k + 1, by rw [hk]; ring⟩, ?_, hmax⟩
          calc mn ≤ mn * p := Nat.le_mul_of_pos_right _ (by omega)
            _ ≤ v := hle
      · rw [if_neg hmm] at h
        simp at h

/-- With a nonempty range and any fuel at all, the legal-value list is
nonempty. -/
theorem potentialValues_length_pos {mn mx p fuel : ℕ} (hmm : mn ≤ mx) (hf : 1 ≤ fuel) :
    0 < (potentialValues mn mx p fuel).length := by
  cases fuel with
  | zero => omega
  | succ n => rw [potentialValues, if_pos hmm]; simp

/-- C6: with `min ≤ max`, ratio `p ≥ 2` and a random draw in `[0,1)`
(and no handler overriding generation), the generated block carries a
defined value of the form `min * p ^ k` inside `[min, max]`; and the
legal-value list for `min=2, max=16, p=2` is exactly `[2, 4, 8, 16]`. -/
theorem generateBlock_value_in_progression (mn mx p row col : ℕ) (g : Gen)
    (hp : 2 ≤ p) (hmm : mn ≤ mx)
    (h0 : 0 ≤ g.rand g.idx) (h1 : g.rand g.idx < 1) :
    (∃ v, ((generateBlock ⟨mn, mx, p⟩ g row col).1).value = some v ∧
        (∃ k, v = mn * p ^ k) ∧ mn ≤ v ∧ v ≤ mx) ∧
    potentialValues 2 16 2 17 = [2, 4, 8, 16] := by
  refine ⟨?_, by rfl⟩
  have hpne : ¬ ((⟨mn, mx, p⟩ : RangeCfg).incrementPower = 0) := by
    simp only [RangeCfg.incrementPower]
    omega
  simp only [generateBlock, if_neg hpne]
  set pv := potentialValues mn mx p (mx + 1) with hpv
  have hL : 0 < pv.length := potentialValues_length_pos hmm (by omega)
  have hLQ : (0 : ℚ) < (pv.length : ℚ) := by exact_mod_cast hL
  have hup : g.rand g.idx * (pv.length : ℚ) < (pv.length : ℚ) := by
    calc g.rand g.idx * (pv.length : ℚ) < 1 * (pv.length : ℚ) :=
          mul_lt_mul_of_pos_right h1 hLQ
      _ = (pv.length : ℚ) := one_mul _
  have hlow : (0 : ℚ) ≤ g.rand g.idx * (pv.length : ℚ) := mul_nonneg h0 (le_of_lt hLQ)
  have hfl : ⌊g.rand g.idx * (pv.length : ℚ)⌋ < (pv.length : ℤ) :=
    Int.floor_lt.mpr (by exact_mod_cast hup)
  have hfl0 : 0 ≤ ⌊g.rand g.idx * (pv.length : ℚ)⌋ := Int.floor_nonneg.mpr hlow
  have hidx : (⌊g.rand g.idx * (pv.length : ℚ)⌋).toNat < pv.length := by omega
  refine ⟨pv.get ⟨_, hidx⟩, ?_, ?_⟩
  · exact List.get?_eq_get hidx
  · exact potentialValues_mem (by omega) (mx + 1) mn _ (List.get_mem pv _ hidx)

/-! ## C7: bounded FIFO history -/

/-- `fillEmptyPositions` never touches the history. -/
theorem fillStep_foldl_stateHistory (ps : List (ℕ × ℕ)) :
    ∀ (acc : Engine × Gen × List Block),
      ((ps.foldl fillStep acc).1).stateHistory = acc.1.stateHistory := by
  induction ps with
  | nil => intro acc; rfl
  | cons p ps ih => intro acc; rw [List.foldl_cons, ih]; rfl

/-- Every (non-cancelled) `processMerge` call performs exactly one
`addToHistory` append, whatever path it then takes. -/
theorem processMerge_appends_once (e : Engine) (g : Gen) :
    (processMerge e g false).1.stateHistory =
      addToHistory e.stateHistoryVersions e.stateHistory (snapshot e.state) := by
  cases hc : e.currentBlock with
  | none => simp [processMerge, hc]
  | some t =>
      by_cases hlen : e.selectedBlocks.length < 2
      · simp [processMerge, hc, hlen]
      · simp only [processMerge, Bool.false_eq_true, if_false, hc, if_neg hlen,
          fillEmptyPositions]
        rw [fillStep_foldl_stateHistory]

/-- Folding `addToHistory` from a history not exceeding the bound keeps
only the last `cap` snapshots of everything ever appended. -/
theorem addToHistory_foldl (cap : ℕ) :
    ∀ (ss : List Snapshot) (h : List Snapshot), h.length ≤ cap →
      ss.foldl (addToHistory cap) h = (h ++ ss).drop ((h ++ ss).length - cap) := by
  intro ss
  induction ss with
  | nil =>
      intro h hle
      simp only [List.foldl_nil, List.append_nil]
      rw [Nat.sub_eq_zero_of_le hle, List.drop_zero]
  | cons s ss ih =>
      intro h hle
      rw [List.foldl_cons]
      by_cases hfull : cap < (h ++ [s]).length
      · have hstep : addToHistory cap h s = (h ++ [s]).drop 1 := by
          simp only [addToHistory, if_pos hfull, List.drop_one]
        have hlen1 : ((h ++ [s]).drop 1).length ≤ cap := by
          simp only [List.length_drop, List.length_append, List.length_singleton]
          simp only [List.length_append, List.length_singleton] at hfull
          omega
        rw [hstep, ih _ hlen1]
        have hA : (h ++ [s]).drop 1 ++ ss = ((h ++ [s]) ++ ss).drop 1 :=
          (List.drop_append_of_le_length (by simp)).symm
        rw [hA, List.drop_drop]
        have hcat : (h ++ [s]) ++ ss = h ++ s :: ss := by simp
        rw [hcat]
        congr 1
        simp only [List.length_drop, List.length_append, List.length_singleton,
          List.length_cons]
        simp only [List.length_append, List.length_singleton] at hfull
        omega
      · have hstep : addToHistory cap h s = h ++ [s] := by
          simp only [addToHistory, if_neg hfull]
        have hlen1 : (h ++ [s]).length ≤ cap := by omega
        rw [hstep, ih _ hlen1]
        have hcat : (h ++ [s]) ++ ss = h ++ s :: ss := by simp
        rw [hcat]

/-- C7: the history is a bounded FIFO. Each (non-cancelled)
`processMerge` appends exactly one snapshot via `addToHistory`; and
appending `n` snapshots into an empty history bounded by `cap` leaves
exactly `min n cap` entries, namely the *last* `min n cap` snapshots
appended (the oldest are evicted): for `cap = 10` and 15 appends, 10
entries remain and the oldest 5 are gone. -/
theorem addToHistory_bounded_fifo :
    (∀ (e : Engine) (g : Gen),
        (processMerge e g false).1.stateHistory =
          addToHistory e.stateHistoryVersions e.stateHistory (snapshot e.state)) ∧
    ∀ (cap : ℕ) (ss : List Snapshot),
      (ss.foldl (addToHistory cap) []).length = min ss.length cap ∧
      ss.foldl (addToHistory cap) [] = ss.drop (ss.length - cap) := by
  refine ⟨processMerge_appends_once, fun cap ss => ?_⟩
  have h := addToHistory_foldl cap ss [] (by simp)
  simp only [List.nil_append] at h
  refine ⟨?_, h⟩
  rw [h, List.length_drop]
  omega

/-! ## Structure of `dragEnd` -/

/-- The verdict of the merge-rule loop is the conjunction of all rules
(in the pure setting, order does not affect the verdict). -/
theorem evalMergeRules_fst (rs : List MergeRule) (sel : List Block) (st : GridState) :
    (evalMergeRules rs sel st).1 = rs.all fun r => r sel st := by
  induction rs with
  | nil => rfl
  | cons r rs ih =>
      cases h : r sel st <;> simp [evalMergeRules, h, ih]

/-- The merge-rule loop evaluates the rules in registration order and
stops at the first failure: its trace is the longest all-true prefix of
the per-rule results, followed by the first `false` if one exists. -/
theorem evalMergeRules_snd (rs : List MergeRule) (sel : List Block) (st : GridState) :
    (evalMergeRules rs sel st).2 =
      ((rs.map fun r => r sel st).takeWhile fun b => b) ++
        (((rs.map fun r => r sel st).dropWhile fun b => b).take 1) := by
  induction rs with
  | nil => rfl
  | cons r rs ih =>
      cases h : r sel st <;>
        simp [evalMergeRules, h, ih, List.takeWhile_cons, List.dropWhile_cons]

/-- When the current-block pointer is clear, `processMerge` appends its
history snapshot and then stops, reporting failure and touching nothing
else. -/
theorem processMerge_no_target (e : Engine) (g : Gen) (hc : e.currentBlock = none) :
    processMerge e g false =
      ({ e with
          stateHistory := addToHistory e.stateHistoryVersions e.stateHistory (snapshot e.state) },
        g, false) := by
  simp [processMerge, hc]

/-- Removing highlights never touches the grid state. -/
theorem unhighlight_foldl_state (l : List Block) :
    ∀ (e : Engine), (l.foldl unhighlightStep e).state = e.state := by
  induction l with
  | nil => intro e; rfl
  | cons b l ih =>
      intro e
      rw [List.foldl_cons, ih]
      by_cases hb : b.el = true <;> simp [unhighlightStep, hb]

/-- Removing highlights only ever shrinks the highlight set. -/
theorem unhighlight_foldl_subset (l : List Block) :
    ∀ (e : Engine), (l.foldl unhighlightStep e).highlighted ⊆ e.highlighted := by
  induction l with
  | nil => intro e; exact Finset.Subset.refl _
  | cons b l ih =>
      intro e
      rw [List.foldl_cons]
      refine (ih _).trans ?_
      by_cases hb : b.el = true
      · simp only [unhighlightStep, hb, if_true]
        exact Finset.erase_subset _ _
      · simp [unhighlightStep, hb]

/-- After the unhighlight loop, no element of a selected block that has
an element keeps the highlight class. -/
theorem unhighlight_foldl_not_mem (l : List Block) :
    ∀ (e : Engine) (b : Block), b ∈ l → b.el = true →
      b.oid ∉ (l.foldl unhighlightStep e).highlighted := by
  induction l with
  | nil => intro e b hb; simp at hb
  | cons a l ih =>
      intro e b hb hel
      rcases List.mem_cons.mp hb with rfl | hb
      · rw [List.foldl_cons]
        intro hmem
        have hsub := unhighlight_foldl_subset l (unhighlightStep e b) hmem
        simp only [unhighlightStep, hel, if_true] at hsub
        exact (Finset.not_mem_erase _ _) hsub
      · rw [List.foldl_cons]
        exact ih _ b hb hel

/-- `dragEnd` on an empty selection: state machine flags are cleared and
the concluding event reports `merged = false`. -/
theorem dragEnd_empty (e : Engine) (g : Gen) (hsel : e.selectedBlocks = []) :
    dragEnd e g false =
      ⟨{ e with isDragging := false, currentBlock := none }, g, false, none, [], some false⟩ := by
  simp [dragEnd, hsel]

/-- The complete behaviour of a non-cancelled `dragEnd` with a non-empty
selection, in closed form: writing `valid` for the conjunction of all
merge-rule results and the 2-block threshold, `processMerge` is invoked
iff `valid` (returning `false`, since the current block was cleared
first, after appending one stray history snapshot), the selection is
cleared, highlights of all previously selected blocks are removed, and
the final event reports `merged = valid`. -/
theorem dragEnd_main (e : Engine) (g : Gen) (hne : e.selectedBlocks ≠ []) :
    dragEnd e g false =
      ⟨e.selectedBlocks.foldl unhighlightStep
          { e with
              isDragging := false
              currentBlock := none
              selectedBlocks := []
              stateHistory :=
                if (e.mergeRules.all fun r => r e.selectedBlocks e.state) &&
                    decide (2 ≤ e.selectedBlocks.length) then
                  addToHistory e.stateHistoryVersions e.stateHistory (snapshot e.state)
                else e.stateHistory },
        g,
        (e.mergeRules.all fun r => r e.selectedBlocks e.state) &&
          decide (2 ≤ e.selectedBlocks.length),
        if (e.mergeRules.all fun r => r e.selectedBlocks e.state) &&
            decide (2 ≤ e.selectedBlocks.length) then some false else none,
        (evalMergeRules e.mergeRules e.selectedBlocks e.state).2,
        some ((e.mergeRules.all fun r => r e.selectedBlocks e.state) &&
          decide (2 ≤ e.selectedBlocks.length))⟩ := by
  have hlen0 : ¬ (e.selectedBlocks.length = 0) := by
    simpa [List.length_eq_zero] using hne
  by_cases hv : ((e.mergeRules.all fun r => r e.selectedBlocks e.state) &&
      decide (2 ≤ e.selectedBlocks.length)) = true
  · have hpm : processMerge { e with isDragging := false, currentBlock := none } g false =
        ({ e with
            isDragging := false
            currentBlock := none
            stateHistory :=
              addToHistory e.stateHistoryVersions e.stateHistory (snapshot e.state) },
          g, false) := by
      rw [processMerge_no_target _ _ rfl]
    simp only [dragEnd, Bool.false_eq_true, if_false, hlen0, evalMergeRules_fst, hv,
      if_true, hpm]
  · rw [Bool.not_eq_true] at hv
    simp only [dragEnd, Bool.false_eq_true, if_false, hlen0, evalMergeRules_fst, hv,
      Bool.false_eq_true, if_false]

/-! ## C3: highlight removal and the `merged` flag -/

/-- C3 — counterexample: at the end of the 2-block gesture above, the
concluding event reports `merged = true` while `processMerge` actually
returned `false` (it performed no merge): the flag is computed from rule
validity and selection size, not from the merge outcome. -/
theorem mergedFlag_disagrees_processMerge :
    (dragEnd mergeEngine gZero false).afterEvent = some true ∧
    (dragEnd mergeEngine gZero false).processMergeResult = some false := by
  decide

/-- C3 amended: for every non-cancelled `dragEnd` with a non-empty
selection, the highlight is removed from every block that was in the
selection regardless of merge outcome, and the concluding event reports
`merged = (all merge rules pass && at least 2 blocks selected)` — a
value independent of the success indicator `processMerge` returns (which
is always `false` on this flow since the current block was cleared). -/
theorem dragEnd_unhighlights_and_mergedFlag (e : Engine) (g : Gen)
    (hne : e.selectedBlocks ≠ []) :
    (∀ b ∈ e.selectedBlocks, b.el = true →
        b.oid ∉ (dragEnd e g false).engine.highlighted) ∧
    (dragEnd e g false).afterEvent =
      some ((e.mergeRules.all fun r => r e.selectedBlocks e.state) &&
        decide (2 ≤ e.selectedBlocks.length)) := by
  rw [dragEnd_main e g hne]
  exact ⟨fun b hb hel => unhighlight_foldl_not_mem _ _ b hb hel, rfl⟩

/-- Closed instance of the amended C3 statement at the 2-block gesture. -/
theorem dragEnd_unhighlights_and_mergedFlag_witness :
    mergeEngine.selectedBlocks ≠ [] ∧
    ((∀ b ∈ mergeEngine.selectedBlocks, b.el = true →
        b.oid ∉ (dragEnd mergeEngine gZero false).engine.highlighted) ∧
      (dragEnd mergeEngine gZero false).afterEvent =
        some ((mergeEngine.mergeRules.all
            fun r => r mergeEngine.selectedBlocks mergeEngine.state) &&
          decide (2 ≤ mergeEngine.selectedBlocks.length))) :=
  ⟨by decide, dragEnd_unhighlights_and_mergedFlag mergeEngine gZero (by decide)⟩

/-! ## C9: an always-false merge rule freezes the grid -/

/-- C9: when some registered merge rule rejects the selection, the merge
validity verdict is `false`, `processMerge` is never invoked, and the
grid cell contents are identical before and after `dragEnd` (only
highlights changed). -/
theorem dragEnd_failing_rule_no_merge (e : Engine) (g : Gen)
    (h : ∃ r ∈ e.mergeRules, r e.selectedBlocks e.state = false) :
    (dragEnd e g false).processMergeInvoked = false ∧
    (dragEnd e g false).engine.state = e.state := by
  have hall : (e.mergeRules.all fun r => r e.selectedBlocks e.state) = false := by
    obtain ⟨r, hr, hf⟩ := h
    exact List.all_eq_false.mpr ⟨r, hr, by simp [hf]⟩
  by_cases hsel : e.selectedBlocks = []
  · rw [dragEnd_empty e g hsel]
    exact ⟨rfl, rfl⟩
  · rw [dragEnd_main e g hsel]
    refine ⟨by simp [hall], ?_⟩
    rw [unhighlight_foldl_state]

/-- The 2-block gesture engine equipped with an always-false merge rule. -/
def ruleFalseEngine : Engine := { mergeEngine with mergeRules := [fun _ _ => false] }

/-- Closed instance of C9 with an always-false merge rule. -/
theorem dragEnd_failing_rule_no_merge_witness :
    (∃ r ∈ ruleFalseEngine.mergeRules,
        r ruleFalseEngine.selectedBlocks ruleFalseEngine.state = false) ∧
    ((dragEnd ruleFalseEngine gZero false).processMergeInvoked = false ∧
      (dragEnd ruleFalseEngine gZero false).engine.state = ruleFalseEngine.state) :=
  ⟨⟨fun _ _ => false, List.mem_singleton.mpr rfl, rfl⟩,
    dragEnd_failing_rule_no_merge ruleFalseEngine gZero
      ⟨fun _ _ => false, List.mem_singleton.mpr rfl, rfl⟩⟩

/-! ## C10: a singleton selection still runs the merge rules -/

/-- C10: on a non-cancelled `dragEnd` whose selection is a single block,
the merge rules are still evaluated — in registration order with
short-circuit on the first failure — although `processMerge` is never
invoked (the 2-block threshold fails whatever the rules say). -/
theorem dragEnd_singleton_evaluates_rules (e : Engine) (g : Gen) (b : Block)
    (hsel : e.selectedBlocks = [b]) :
    (dragEnd e g false).processMergeInvoked = false ∧
    (dragEnd e g false).ruleTrace =
      ((e.mergeRules.map fun r => r [b] e.state).takeWhile fun x => x) ++
        (((e.mergeRules.map fun r => r [b] e.state).dropWhile fun x => x).take 1) := by
  have hne : e.selectedBlocks ≠ [] := by rw [hsel]; simp
  rw [dragEnd_main e g hne]
  constructor
  · simp [hsel]
  · show (evalMergeRules e.mergeRules e.selectedBlocks e.state).2 = _
    rw [hsel, evalMergeRules_snd]

/-- A singleton-selection engine with three merge rules, the second of
which fails (so the trace must be `[true, false]`). -/
def threeRulesEngine : Engine :=
  { mergeEngine with
      selectedBlocks := [b1]
      currentBlock := some b1
      mergeRules := [fun _ _ => true, fun _ _ => false, fun _ _ => true] }

/-- Closed instance of C10 on the three-rule singleton gesture. -/
theorem dragEnd_singleton_evaluates_rules_witness :
    threeRulesEngine.selectedBlocks = [b1] ∧
    ((dragEnd threeRulesEngine gZero false).processMergeInvoked = false ∧
      (dragEnd threeRulesEngine gZero false).ruleTrace =
        ((threeRulesEngine.mergeRules.map
            fun r => r [b1] threeRulesEngine.state).takeWhile fun x => x) ++
          (((threeRulesEngine.mergeRules.map
              fun r => r [b1] threeRulesEngine.state).dropWhile fun x => x).take 1)) :=
  ⟨rfl, dragEnd_singleton_evaluates_rules threeRulesEngine gZero b1 rfl⟩

/-! ## C8: gesture-start side effects -/

/-- A bare gesture-start event (primary mouse press) carrying no
coordinates. -/
def evStart : InputEvent := { etype := EvType.mousedown }

/-- An engine between gestures that still remembers a stale current
block (e.g. after a cancelled `before: dragEnd`). -/
def staleEngine : Engine :=
  { mergeEngine with selectedBlocks := [b1], currentBlock := some b1, isDragging := false }

/-- C8 — counterexample: a gesture-start `drag` clears the selection
list but does *not* clear the current-block pointer: the stale pointer
`b1` survives the Idle → Dragging transition. -/
theorem drag_start_keeps_currentBlock :
    (drag staleEngine rects100 false evStart).engine.currentBlock = some b1 ∧
    (drag staleEngine rects100 false evStart).engine.selectedBlocks = [] := by
  decide

/-- C8 amended: a non-cancelled gesture-start input clears the selection
list, sets the dragging flag and suppresses the default browser handling
(`preventDefault()`), but leaves the current-block pointer unchanged (it
is cleared at gesture end, and overwritten only when a new block is
accepted); here stated on starts that resolve no block. -/
theorem drag_start_side_effects (e : Engine) (rects : ℕ → Rect) (ev : InputEvent)
    (hstart : ev.etype = EvType.mousedown ∨ ev.etype = EvType.touchstart)
    (hcoords : getEventCoordinates ev = none) :
    (drag e rects false ev).engine.selectedBlocks = [] ∧
    (drag e rects false ev).engine.isDragging = true ∧
    (drag e rects false ev).preventDefaultCalled = true ∧
    (drag e rects false ev).engine.currentBlock = e.currentBlock := by
  have hb : (decide (ev.etype = EvType.mousedown) ||
      decide (ev.etype = EvType.touchstart)) = true := by
    rcases hstart with h | h <;> simp [h]
  simp [drag, hb, hcoords]

/-- Closed instance of the amended C8 statement on the stale engine. -/
theorem drag_start_side_effects_witness :
    ((evStart.etype = EvType.mousedown ∨ evStart.etype = EvType.touchstart) ∧
      getEventCoordinates evStart = none) ∧
    ((drag staleEngine rects100 false evStart).engine.selectedBlocks = [] ∧
      (drag staleEngine rects100 false evStart).engine.isDragging = true ∧
      (drag staleEngine rects100 false evStart).preventDefaultCalled = true ∧
      (drag staleEngine rects100 false evStart).engine.currentBlock =
        staleEngine.currentBlock) :=
  ⟨⟨Or.inl rfl, rfl⟩, drag_start_side_effects staleEngine rects100 evStart (Or.inl rfl) rfl⟩

/-- Closed instance of C6 at `min=2, max=16, p=2` with the zero random
stream. -/
theorem generateBlock_value_in_progression_witness :
    ((2 ≤ 2) ∧ (2 ≤ 16) ∧ (0 : ℚ) ≤ gZero.rand gZero.idx ∧ gZero.rand gZero.idx < 1) ∧
    ((∃ v, ((generateBlock ⟨2, 16, 2⟩ gZero 0 0).1).value = some v ∧
        (∃ k, v = 2 * 2 ^ k) ∧ 2 ≤ v ∧ v ≤ 16) ∧
      potentialValues 2 16 2 17 = [2, 4, 8, 16]) :=
  ⟨⟨by norm_num, by norm_num, by norm_num [gZero], by norm_num [gZero]⟩,
    generateBlock_value_in_progression 2 16 2 0 0 gZero (by norm_num) (by norm_num)
      (by norm_num [gZero]) (by norm_num [gZero])⟩
